import Mathlib

/-
  Verification development for the yt-disaster-scraper repository.

  Shallow embedding of the transcript-normalization pipeline
  (clean_transcript, identical across scraper.py, old_scraper.py and
  pytube_scraper.py), the multi-tier transcript resolver
  (old_scraper.get_transcript with its Whisper fallback, and the
  pytube_scraper Whisper fallback with its finally-based cleanup),
  and the corpus ingestion loop (old_scraper.build_corpus).

  Text is modelled as List Char.  External collaborators (the caption
  API, the audio download, the database commit outcomes) are modelled
  as environment parameters; the functions of the repository are
  translated statement by statement.
-/

/-- The whitespace class of the Python regexes and str operations,
restricted to the ASCII whitespace characters. -/
def isPySpace (c : Char) : Bool :=
  c = ' ' || c = '\t' || c = '\n' || c = '\x0d' || c = '\x0b' || c = '\x0c'

/-- One pass of the substitution re.sub of one or more whitespace
characters by a single space: the Bool flag records whether the
previous character was whitespace (in which case further whitespace is
absorbed into the already-emitted space). -/
def collapseAux : Bool → List Char → List Char
  | _, [] => []
  | prevSpace, c :: cs =>
    if isPySpace c then
      if prevSpace then collapseAux true cs
      else ' ' :: collapseAux true cs
    else c :: collapseAux false cs

/-- re.sub of whitespace runs by a single space, as in clean_transcript. -/
def collapseWs (cs : List Char) : List Char := collapseAux false cs

/-- Python str.strip: remove leading and trailing whitespace. -/
def stripEnds (cs : List Char) : List Char :=
  ((cs.dropWhile isPySpace).reverse.dropWhile isPySpace).reverse

/-- Token counter matching len(text.split()): number of maximal
whitespace-free runs.  The Bool flag records whether the previous
character belonged to a token. -/
def countTokensAux : Bool → List Char → Nat
  | _, [] => 0
  | inTok, c :: cs =>
    if isPySpace c then countTokensAux false cs
    else (if inTok then 0 else 1) + countTokensAux true cs

/-- len(text.split()) of Python: the number of whitespace-delimited tokens. -/
def countTokens (cs : List Char) : Nat := countTokensAux false cs

/-- Attempt to match the regex of one or more digits, a colon, digits,
a colon, digits, then any whitespace up to and including a newline, at
the head of the list; on success return the remainder of the list
after the matched prefix.  The greedy whitespace-star followed by a
mandatory newline consumes the run of whitespace up to the last
newline inside it. -/
def matchTimestamp (cs : List Char) : Option (List Char) :=
  let d1 := cs.takeWhile Char.isDigit
  let r1 := cs.dropWhile Char.isDigit
  if d1.isEmpty then none else
  match r1 with
  | ':' :: r1a =>
    let d2 := r1a.takeWhile Char.isDigit
    let r2 := r1a.dropWhile Char.isDigit
    if d2.isEmpty then none else
    match r2 with
    | ':' :: r2a =>
      let d3 := r2a.takeWhile Char.isDigit
      let r3 := r2a.dropWhile Char.isDigit
      if d3.isEmpty then none else
      let w := r3.takeWhile isPySpace
      let rest := r3.dropWhile isPySpace
      if '\n' ∈ w then
        some ((w.reverse.takeWhile (fun c => !(c = '\n'))).reverse ++ rest)
      else none
    | _ => none
  | _ => none

/-- Scan of re.sub with the timestamp pattern and empty replacement:
try a match at each position from the left; on success continue after
the match, otherwise keep the character and move one position right.
The fuel argument bounds the recursion; every step consumes at least
one character, so fuel equal to the length of the list is enough. -/
def stripTSAux : Nat → List Char → List Char
  | 0, cs => cs
  | _ + 1, [] => []
  | fuel + 1, c :: cs =>
    match matchTimestamp (c :: cs) with
    | some rest => stripTSAux fuel rest
    | none => c :: stripTSAux fuel cs

/-- re.sub removing timestamp-like prefixes, first step of clean_transcript. -/
def stripTimestamps (cs : List Char) : List Char := stripTSAux cs.length cs

/-- Python str.lower restricted to ASCII letters. -/
def lowerList (cs : List Char) : List Char := cs.map Char.toLower

/-- The closed list of 14 Indonesian indicator words of clean_transcript. -/
def indonesian_indicators : List (List Char) :=
  [['y','a','n','g'], ['d','a','r','i'], ['d','e','n','g','a','n'],
   ['u','n','t','u','k'], ['d','a','l','a','m'], ['p','a','d','a'],
   ['i','n','i'], ['i','t','u'], ['j','a','d','i'], ['a','d','a'],
   ['t','i','d','a','k'], ['s','u','d','a','h'], ['a','k','a','n'],
   ['s','e','p','e','r','t','i']]

/-- w occurs at the front of t. -/
def occursAtFront : List Char → List Char → Bool
  | [], _ => true
  | _ :: _, [] => false
  | a :: as, b :: bs => a = b && occursAtFront as bs

/-- The Python substring operator: w occurs somewhere inside t. -/
def occursIn (w : List Char) : List Char → Bool
  | [] => w.isEmpty
  | c :: rest => occursAtFront w (c :: rest) || occursIn w rest

/-- The substring test of clean_transcript: some indicator word occurs
inside the lowercased text. -/
def hasIndicator (cs : List Char) : Bool :=
  indonesian_indicators.any (fun w => occursIn w (lowerList cs))

/-- The cleaned form of the text after the two regex substitutions and
the strip, before the quality filters of clean_transcript. -/
def cleanedForm (text : List Char) : List Char :=
  stripEnds (collapseWs (stripTimestamps text))

/-- clean_transcript of scraper.py, old_scraper.py and
pytube_scraper.py (the three copies are identical): strip timestamps,
collapse whitespace and trim; reject (return the empty list) if fewer
than 10 tokens remain or if no indicator word occurs in the lowercased
text; otherwise return the cleaned text. -/
def clean_transcript (text : List Char) : List Char :=
  if countTokens (cleanedForm text) < 10 then [] else
  if !(hasIndicator (cleanedForm text)) then [] else
  cleanedForm text

/-- Every whitespace character of the list is the plain space (the
shape of a text whose whitespace runs were collapsed). -/
def spacesAreBlank (l : List Char) : Prop :=
  ∀ c ∈ l, isPySpace c = true → c = ' '

/-- No two adjacent characters of the list are both whitespace. -/
def noTwoSpaces (l : List Char) : Prop :=
  List.Chain' (fun a b => ¬(isPySpace a = true ∧ isPySpace b = true)) l

/-- The first character, when present, is not whitespace. -/
def headNoSpace (l : List Char) : Prop :=
  ∀ c, l.head? = some c → isPySpace c = false

/-- The last character, when present, is not whitespace. -/
def lastNoSpace (l : List Char) : Prop :=
  ∀ c, l.getLast? = some c → isPySpace c = false

/-- The join by a single space of Python applied to the list of cue
texts of a caption track. -/
def joinSp : List (List Char) → List Char
  | [] => []
  | [t] => t
  | t :: ts => t ++ ' ' :: joinSp ts

/-- The result dictionary built by get_transcript. -/
structure TranscriptData where
  text : List Char
  lang : List Char
  hasCaption : Bool
deriving DecidableEq

/-- The three fallback tiers of the resolver, recorded in the
invocation trace. -/
inductive Tier
  | nativeT
  | generatedT
  | localT
deriving DecidableEq

/-- Outcome of the call to YouTubeTranscriptApi.get_transcript for the
preferred languages: a cue list with the language of the first entry,
one of the two caught caption exceptions, or any other exception. -/
inductive NativeOutcome
  | cues (texts : List (List Char)) (lang : List Char)
  | noTranscriptFound
  | transcriptsDisabled
  | apiError
deriving DecidableEq

/-- One caption track as enumerated by list_transcripts: its
auto-generated flag, the result of fetch (none models a raised
exception), and its language code. -/
structure GenTrack where
  isGenerated : Bool
  fetched : Option (List (List Char))
  languageCode : List Char
deriving DecidableEq

/-- Outcome of one download-and-transcribe attempt inside
old_scraper.get_transcript_with_whisper: an exception before the audio
file was written, an exception after it was written, or a completed
transcription returning raw text. -/
inductive AttemptOutcome
  | failBeforeDownload
  | failAfterDownload
  | succeed (raw : List Char)
deriving DecidableEq

/-- Whether the attempt reached a completed transcription. -/
def AttemptOutcome.isSuccess : AttemptOutcome → Bool
  | .succeed _ => true
  | _ => false

/-- Environment of old_scraper.get_transcript_with_whisper: whether
the YouTube object construction succeeds, and the outcome of each
download-and-transcribe attempt. -/
structure WhisperEnvOld where
  ytOk : Bool
  attempts : List AttemptOutcome
deriving DecidableEq

/-- Observable result of one run of the local-transcription tier:
the returned value, the number of attempts made, the number of
one-second pauses slept, and whether the transient audio file still
exists on disk at return. -/
structure WhisperRun where
  result : Option (List Char)
  attemptsMade : Nat
  sleeps : Nat
  fileExists : Bool
deriving DecidableEq

/-- The outcomes of the at most three attempts of the range(3) loop;
missing entries of the environment are treated as failures before the
download. -/
def attempts3 (env : WhisperEnvOld) : List AttemptOutcome :=
  (env.attempts ++ List.replicate 3 AttemptOutcome.failBeforeDownload).take 3

/-- The retry loop of old_scraper.get_transcript_with_whisper: on an
exception the handler logs and sleeps one second, then the next
attempt runs; a completed transcription removes the audio file and
returns clean_transcript of the raw text; the loop exhausting its
attempts falls through to an implicit None.  The Bool argument is
whether the audio file currently exists on disk; there is no cleanup
on the failure paths in this variant. -/
def whisperOldGo : List AttemptOutcome → Bool → WhisperRun
  | [], fileEx => ⟨none, 0, 0, fileEx⟩
  | .failBeforeDownload :: rest, fileEx =>
    let r := whisperOldGo rest fileEx
    ⟨r.result, r.attemptsMade + 1, r.sleeps + 1, r.fileExists⟩
  | .failAfterDownload :: rest, _ =>
    let r := whisperOldGo rest true
    ⟨r.result, r.attemptsMade + 1, r.sleeps + 1, r.fileExists⟩
  | .succeed raw :: _, _ => ⟨some (clean_transcript raw), 1, 0, false⟩

/-- old_scraper.get_transcript_with_whisper: if the YouTube object
construction raises, the outer handler returns None with no attempt
made; otherwise the retry loop runs. -/
def get_transcript_with_whisper_old (env : WhisperEnvOld) : WhisperRun :=
  if env.ytOk then whisperOldGo (attempts3 env) false
  else ⟨none, 0, 0, false⟩

/-- Outcome of one attempt inside
pytube_scraper.get_transcript_with_whisper: no audio stream available
(immediate None), an exception before or after the file was written
(sleep, then next attempt), a download that left no usable file (no
sleep, next attempt; the flag records whether an empty file was
written), or a completed transcription. -/
inductive PAttemptOutcome
  | noStream
  | transientBefore
  | transientAfter
  | emptyFile (wrote : Bool)
  | ok (raw : List Char)
deriving DecidableEq

/-- Whether the attempt is a failure that lets the loop move on to the
next attempt (an exception, or a download that left no usable file);
the no-stream return and a completed transcription end the loop. -/
def PAttemptOutcome.isFail : PAttemptOutcome → Bool
  | .transientBefore => true
  | .transientAfter => true
  | .emptyFile _ => true
  | _ => false

/-- Whether the attempt fails by raising an exception — the only kind
of failure whose handler sleeps the one-second pause in the pytube
variant. -/
def PAttemptOutcome.isTransientFail : PAttemptOutcome → Bool
  | .transientBefore => true
  | .transientAfter => true
  | _ => false

/-- Environment of pytube_scraper.get_transcript_with_whisper. -/
structure PWhisperEnv where
  ytOk : Bool
  attempts : List PAttemptOutcome
deriving DecidableEq

/-- The outcomes of the at most three attempts of the range(3) loop of
the pytube variant. -/
def pAttempts3 (env : PWhisperEnv) : List PAttemptOutcome :=
  (env.attempts ++ List.replicate 3 PAttemptOutcome.transientBefore).take 3

/-- The retry loop of pytube_scraper.get_transcript_with_whisper,
before the finally block runs.  The Bool argument is whether the audio
file currently exists on disk. -/
def pWhisperGo : List PAttemptOutcome → Bool → WhisperRun
  | [], fileEx => ⟨none, 0, 0, fileEx⟩
  | .noStream :: _, fileEx => ⟨none, 1, 0, fileEx⟩
  | .transientBefore :: rest, fileEx =>
    let r := pWhisperGo rest fileEx
    ⟨r.result, r.attemptsMade + 1, r.sleeps + 1, r.fileExists⟩
  | .transientAfter :: rest, _ =>
    let r := pWhisperGo rest true
    ⟨r.result, r.attemptsMade + 1, r.sleeps + 1, r.fileExists⟩
  | .emptyFile wrote :: rest, fileEx =>
    let r := pWhisperGo rest (fileEx || wrote)
    ⟨r.result, r.attemptsMade + 1, r.sleeps, r.fileExists⟩
  | .ok raw :: _, _ => ⟨some (clean_transcript raw), 1, 0, true⟩

/-- The finally block of the pytube variant: if the audio file exists
it is removed; this runs on every exit path of the function. -/
def applyCleanupFinally (r : WhisperRun) : WhisperRun :=
  ⟨r.result, r.attemptsMade, r.sleeps, if r.fileExists then false else r.fileExists⟩

/-- pytube_scraper.get_transcript_with_whisper: the retry loop guarded
by the outer handler, with the finally-based cleanup applied on every
exit path. -/
def get_transcript_with_whisper_pytube (env : PWhisperEnv) : WhisperRun :=
  if env.ytOk then applyCleanupFinally (pWhisperGo (pAttempts3 env) false)
  else applyCleanupFinally ⟨none, 0, 0, false⟩

/-- Environment of one call to old_scraper.get_transcript: the native
caption outcome, the track list of list_transcripts (none models a
raised exception), and the local-transcription environment. -/
structure ResolveEnv where
  native : NativeOutcome
  genTracks : Option (List GenTrack)
  whisper : WhisperEnvOld
deriving DecidableEq

/-- The generated-caption loop of old_scraper.get_transcript: walk the
enumerated tracks; for an auto-generated track fetch the cues (a fetch
exception aborts the whole loop, caught by the handler that then falls
through to the local tier), clean the joined text, and return it when
the cleaning accepted it; a rejected text falls through to the next
track. -/
def genLoop : List GenTrack → Option (List Char × List Char)
  | [] => none
  | t :: ts =>
    if t.isGenerated then
      match t.fetched with
      | none => none
      | some texts =>
        if (clean_transcript (joinSp texts)).isEmpty then genLoop ts
        else some (clean_transcript (joinSp texts), t.languageCode)
    else genLoop ts

/-- The language code used for Whisper results. -/
def idLang : List Char := ['i','d']

/-- old_scraper.get_transcript: try the native caption track; when it
produces text the cleaned text is returned if accepted, and the
function falls through to return None if the cleaning rejected it (no
later tier runs); on the two caption exceptions the generated-caption
loop runs and, if it produces nothing, the local Whisper tier; any
other exception of the first call returns None.  The second component
is the trace of tiers invoked. -/
def get_transcript (env : ResolveEnv) : Option TranscriptData × List Tier :=
  match env.native with
  | .cues texts lang =>
    if (clean_transcript (joinSp texts)).isEmpty then (none, [Tier.nativeT])
    else (some ⟨clean_transcript (joinSp texts), lang, true⟩, [Tier.nativeT])
  | .apiError => (none, [Tier.nativeT])
  | _ =>
    match (match env.genTracks with | none => none | some l => genLoop l) with
    | some (cleaned, lc) => (some ⟨cleaned, lc, true⟩, [Tier.nativeT, Tier.generatedT])
    | none =>
      match (get_transcript_with_whisper_old env.whisper).result with
      | some t =>
        if t.isEmpty then (none, [Tier.nativeT, Tier.generatedT, Tier.localT])
        else (some ⟨t, idLang, false⟩, [Tier.nativeT, Tier.generatedT, Tier.localT])
      | none => (none, [Tier.nativeT, Tier.generatedT, Tier.localT])

/-- A candidate video record as consumed by build_corpus. -/
structure Video where
  vid : List Char
  title : List Char
  channel_title : List Char
deriving DecidableEq

/-- A row of the youtube_transcript_corpus table (the fields the
pipeline writes from the transcript). -/
structure CorpusEntry where
  eid : List Char
  title : List Char
  channel_title : List Char
  transcript_text : List Char
  language : List Char
  has_caption : Bool
deriving DecidableEq

/-- The persistent store: the corpus table and the processed-marker
table (youtube_processed_data), both keyed by video id. -/
structure Store where
  corpus : List CorpusEntry
  processed : List (List Char)
deriving DecidableEq

/-- The ids present in the corpus table. -/
def corpusIds (st : Store) : List (List Char) :=
  st.corpus.map CorpusEntry.eid

/-- Outcome of the commit ending the transaction of one candidate. -/
inductive CommitOutcome
  | ok
  | integrityError
  | otherError
deriving DecidableEq

/-- Environment of search_videos: the candidate records collected
before the pagination finished or an exception was raised, and whether
an exception was raised.  The function catches every exception and
returns what was collected, so the flag does not influence the
output. -/
structure SearchEnv where
  fetched : List Video
  fetchFailed : Bool
deriving DecidableEq

/-- old_scraper.search_videos: every exception of the fetch is caught
and logged inside the function, which then returns the candidates
collected so far, truncated to max_results. -/
def search_videos (env : SearchEnv) (maxResults : Nat) : List Video :=
  env.fetched.take maxResults

/-- Environment of one build_corpus run: the search environment and
cap, the per-video resolver environment, and the per-video outcome of
the commit ending its transaction. -/
structure BuildEnv where
  search : SearchEnv
  maxResults : Nat
  resolveEnvOf : List Char → ResolveEnv
  commitOutcome : List Char → CommitOutcome

/-- Trace of a run: the ids for which get_transcript was invoked, and
the ids whose processed-marker insert was committed. -/
structure RunTrace where
  resolved : List (List Char)
  claimed : List (List Char)
deriving DecidableEq

/-- Result of a build_corpus run: whether a batch-level exception
propagated out of the function, the processed count it returned (the
count so far when aborting), the final store, and the trace. -/
structure RunResult where
  err : Bool
  count : Nat
  store : Store
  trace : RunTrace
deriving DecidableEq

/-- The corpus row built from a candidate and its transcript data. -/
def mkEntry (v : Video) (d : TranscriptData) : CorpusEntry :=
  ⟨v.vid, v.title, v.channel_title, d.text, d.lang, d.hasCaption⟩

/-- The candidate loop of old_scraper.build_corpus.  For each
candidate: if its id is in the corpus table or the marker table the
candidate is skipped; otherwise a marker is inserted (pending),
get_transcript runs, and the transaction is committed — storing the
corpus row too when a non-empty transcript was produced.  An
IntegrityError at the commit rolls the transaction back and the loop
continues; any other exception propagates out of the function after a
rollback of the pending transaction (the raise of the outer handler),
leaving the store as already committed. -/
def goBC (env : BuildEnv) : Store → List Video → Nat → RunTrace → RunResult
  | st, [], n, tr => ⟨false, n, st, tr⟩
  | st, v :: rest, n, tr =>
    if v.vid ∈ st.processed ∨ v.vid ∈ corpusIds st then
      goBC env st rest n tr
    else
      match env.commitOutcome v.vid with
      | .otherError => ⟨true, n, st, ⟨tr.resolved ++ [v.vid], tr.claimed⟩⟩
      | .integrityError => goBC env st rest n ⟨tr.resolved ++ [v.vid], tr.claimed⟩
      | .ok =>
        match (get_transcript (env.resolveEnvOf v.vid)).1 with
        | some d =>
          if d.text.isEmpty then
            goBC env ⟨st.corpus, st.processed ++ [v.vid]⟩ rest n
              ⟨tr.resolved ++ [v.vid], tr.claimed ++ [v.vid]⟩
          else
            goBC env ⟨st.corpus ++ [mkEntry v d], st.processed ++ [v.vid]⟩ rest (n + 1)
              ⟨tr.resolved ++ [v.vid], tr.claimed ++ [v.vid]⟩
        | none =>
          goBC env ⟨st.corpus, st.processed ++ [v.vid]⟩ rest n
            ⟨tr.resolved ++ [v.vid], tr.claimed ++ [v.vid]⟩

/-- old_scraper.build_corpus: fetch the candidates and run the loop
over them with the processed count starting at zero. -/
def build_corpus (env : BuildEnv) (st : Store) : RunResult :=
  goBC env st (search_videos env.search env.maxResults) 0 ⟨[], []⟩

/-- A raw text with no indicator word in it: ten one-letter tokens,
then letters of an indicator word separated by a timestamp pattern
(the characters of the text read a b c d e f g h i j ya1:2:3, a line
break, ng). -/
def badRaw : List Char :=
  ['a',' ','b',' ','c',' ','d',' ','e',' ','f',' ','g',' ','h',' ','i',' ','j',' ',
   'y','a','1',':','2',':','3','\n','n','g']

/-- Ten tokens xx, none an indicator word. -/
def xsText : List Char :=
  ['x','x',' ','x','x',' ','x','x',' ','x','x',' ','x','x',' ','x','x',' ','x','x',
   ' ','x','x',' ','x','x',' ','x','x']

/-- A raw text accepted by clean_transcript: ten tokens yang. -/
def goodRaw : List Char := joinSp (List.replicate 10 ['y','a','n','g'])

/-- A short raw text rejected by clean_transcript. -/
def shortT : List Char := ['x','x']

/-- Resolver environment for the generated-tier fall-through: the
native call raises NoTranscriptFound, the only track is auto-generated
and fetches a text the normalizer rejects, and the local tier
transcribes an accepted text on its first attempt. -/
def env3 : ResolveEnv :=
  ⟨NativeOutcome.noTranscriptFound,
   some [⟨true, some [shortT], ['e','n']⟩],
   ⟨true, [AttemptOutcome.succeed goodRaw]⟩⟩

/-- Local-tier environment in which every attempt fails after the
audio file was written. -/
def wenvBad : WhisperEnvOld :=
  ⟨true, [AttemptOutcome.failAfterDownload, AttemptOutcome.failAfterDownload,
          AttemptOutcome.failAfterDownload]⟩

/-- A resolver environment that resolves to no transcript: native
captions missing, no tracks enumerated, YouTube object construction
failing in the local tier. -/
def envNone : ResolveEnv := ⟨NativeOutcome.noTranscriptFound, some [], ⟨false, []⟩⟩

/-- A resolver environment producing an accepted native transcript. -/
def envGood : ResolveEnv := ⟨NativeOutcome.cues [goodRaw] idLang, some [], ⟨false, []⟩⟩

/-- Candidate videos used in the concrete runs. -/
def vA : Video := ⟨['v','1'], ['t','1'], ['c','1']⟩

def vB : Video := ⟨['v','2'], ['t','2'], ['c','2']⟩

def vOld : Video := ⟨['v','9'], ['t','9'], ['c','9']⟩

/-- Build environment whose candidate list holds an already-processed
id and a fresh id that resolves to no transcript. -/
def benvA : BuildEnv := ⟨⟨[vOld, vA], false⟩, 50, fun _ => envNone, fun _ => CommitOutcome.ok⟩

/-- A store already holding a processed marker for the id of vOld. -/
def stOld : Store := ⟨[], [['v','9']]⟩

/-- Build environment whose fetch failed with nothing collected. -/
def benvFetchFail : BuildEnv := ⟨⟨[], true⟩, 50, fun _ => envNone, fun _ => CommitOutcome.ok⟩

/-- Build environment in which the commit of the first candidate
raises a non-IntegrityError exception. -/
def benvAbort : BuildEnv :=
  ⟨⟨[vA, vB], false⟩, 50, fun _ => envGood,
   fun id => if id = vA.vid then CommitOutcome.otherError else CommitOutcome.ok⟩

/-- Build environment in which the fetch failed after collecting two
candidates and the commit of the first hits an IntegrityError. -/
def benvAbsorb : BuildEnv :=
  ⟨⟨[vA, vB], true⟩, 50, fun _ => envGood,
   fun id => if id = vA.vid then CommitOutcome.integrityError else CommitOutcome.ok⟩

/-- Build environment committing one accepted transcript. -/
def benvCommit : BuildEnv := ⟨⟨[vA], false⟩, 50, fun _ => envGood, fun _ => CommitOutcome.ok⟩

/-- The empty store. -/
def stEmpty : Store := ⟨[], []⟩

/-- Whether the generated-caption loop would produce nothing for the
given track list of list_transcripts (no tracks enumerable, or every
auto-generated track either failing to fetch or fetching text the
cleaning rejects). -/
def genExhausted : Option (List GenTrack) → Bool
  | none => true
  | some l => (genLoop l).isNone

/-- Local-tier environment in which every attempt fails before the
audio file is written. -/
def wenvAllFail : WhisperEnvOld :=
  ⟨true, [AttemptOutcome.failBeforeDownload, AttemptOutcome.failBeforeDownload,
          AttemptOutcome.failBeforeDownload]⟩

/-- Resolver environment whose three tiers all fail: no native
captions, no tracks, all local attempts failing. -/
def envAllFail : ResolveEnv := ⟨NativeOutcome.noTranscriptFound, some [], wenvAllFail⟩

/-- Resolver environment whose native tier produces a text the
cleaning rejects. -/
def envNativeRej : ResolveEnv :=
  ⟨NativeOutcome.cues [shortT] ['e','n'], some [], ⟨false, []⟩⟩

/-- Pytube local-tier environment in which every attempt downloads a
missing or empty file, the failure path that retries without any
pause. -/
def penvEmpty : PWhisperEnv :=
  ⟨true, [PAttemptOutcome.emptyFile false, PAttemptOutcome.emptyFile false,
          PAttemptOutcome.emptyFile false]⟩

/-- Pytube local-tier environment mixing the two failure kinds: two
attempts raise (each slept after) and one leaves an empty file (no
pause). -/
def penvMixed : PWhisperEnv :=
  ⟨true, [PAttemptOutcome.transientBefore, PAttemptOutcome.emptyFile true,
          PAttemptOutcome.transientAfter]⟩

theorem collapseAux_spacesAreBlank (l : List Char) : ∀ b, spacesAreBlank (collapseAux b l) := by
  induction l with
  | nil => intro b c hc; simp [collapseAux] at hc
  | cons c cs ih =>
    intro b d hd hsp
    by_cases hc : isPySpace c
    · cases b with
      | true =>
        rw [show collapseAux true (c :: cs) = collapseAux true cs by simp [collapseAux, hc]] at hd
        exact ih true d hd hsp
      | false =>
        rw [show collapseAux false (c :: cs) = ' ' :: collapseAux true cs by
          simp [collapseAux, hc]] at hd
        rcases List.mem_cons.mp hd with h | h
        · exact h
        · exact ih true d h hsp
    · rw [show collapseAux b (c :: cs) = c :: collapseAux false cs by
        simp [collapseAux, hc]] at hd
      rcases List.mem_cons.mp hd with h | h
      · subst h; rw [hsp] at hc; exact absurd rfl hc
      · exact ih false d h hsp

theorem collapseAux_chain_head (l : List Char) :
    (∀ b, noTwoSpaces (collapseAux b l)) ∧ headNoSpace (collapseAux true l) := by
  induction l with
  | nil =>
    constructor
    · intro b; simp [collapseAux, noTwoSpaces]
    · intro c hc; simp [collapseAux] at hc
  | cons c cs ih =>
    by_cases hc : isPySpace c
    · constructor
      · intro b
        cases b with
        | true =>
          rw [show collapseAux true (c :: cs) = collapseAux true cs by simp [collapseAux, hc]]
          exact ih.1 true
        | false =>
          rw [show collapseAux false (c :: cs) = ' ' :: collapseAux true cs by
            simp [collapseAux, hc]]
          rw [noTwoSpaces, List.chain'_cons']
          constructor
          · intro y hy hcontra
            have := ih.2 y hy
            rw [this] at hcontra
            exact absurd hcontra.2 (by simp)
          · exact ih.1 true
      · rw [show collapseAux true (c :: cs) = collapseAux true cs by simp [collapseAux, hc]]
        exact ih.2
    · constructor
      · intro b
        rw [show collapseAux b (c :: cs) = c :: collapseAux false cs by simp [collapseAux, hc]]
        rw [noTwoSpaces, List.chain'_cons']
        constructor
        · intro y _ hcontra; exact hc hcontra.1
        · exact ih.1 false
      · rw [show collapseAux true (c :: cs) = c :: collapseAux false cs by simp [collapseAux, hc]]
        intro d hd
        rw [show (c :: collapseAux false cs).head? = some c from rfl] at hd
        cases hd; simpa using hc

theorem headNoSpace_dropWhile (l : List Char) : headNoSpace (l.dropWhile isPySpace) := by
  induction l with
  | nil => intro c hc; simp at hc
  | cons a as ih =>
    by_cases ha : isPySpace a
    · rw [show (a :: as).dropWhile isPySpace = as.dropWhile isPySpace by
        simp [List.dropWhile_cons, ha]]
      exact ih
    · intro c hc
      rw [show (a :: as).dropWhile isPySpace = a :: as by simp [List.dropWhile_cons, ha]] at hc
      cases hc; simpa using ha

theorem stripEnds_isPre (l : List Char) : stripEnds l <+: l.dropWhile isPySpace := by
  unfold stripEnds
  have h2 : ((l.dropWhile isPySpace).reverse.dropWhile isPySpace) <:+
      (l.dropWhile isPySpace).reverse := List.dropWhile_suffix _
  have h3 := List.reverse_prefix.mpr h2
  rwa [List.reverse_reverse] at h3

theorem stripEnds_isPart (l : List Char) : stripEnds l <:+: l :=
  (stripEnds_isPre l).isInfix.trans (List.dropWhile_suffix isPySpace).isInfix

theorem stripEnds_subset (l : List Char) : stripEnds l ⊆ l :=
  (stripEnds_isPart l).sublist.subset

theorem spacesAreBlank_stripEnds {l : List Char} (h : spacesAreBlank l) :
    spacesAreBlank (stripEnds l) :=
  fun c hc => h c (stripEnds_subset l hc)

theorem noTwoSpaces_stripEnds {l : List Char} (h : noTwoSpaces l) : noTwoSpaces (stripEnds l) :=
  h.infix (stripEnds_isPart l)

theorem headNoSpace_stripEnds (l : List Char) : headNoSpace (stripEnds l) := by
  intro c hc
  obtain ⟨t, ht⟩ := stripEnds_isPre l
  have hd : (l.dropWhile isPySpace).head? = some c := by
    rw [← ht]
    cases hse : stripEnds l with
    | nil => rw [hse] at hc; simp at hc
    | cons a r =>
      rw [hse] at hc
      cases hc
      simp
  exact headNoSpace_dropWhile l c hd

theorem lastNoSpace_stripEnds (l : List Char) : lastNoSpace (stripEnds l) := by
  intro c hc
  unfold stripEnds at hc
  rw [List.getLast?_reverse] at hc
  exact headNoSpace_dropWhile (l.dropWhile isPySpace).reverse c hc

theorem collapseAux_eq_self (l : List Char) : ∀ b : Bool, spacesAreBlank l → noTwoSpaces l →
    (b = true → headNoSpace l) → collapseAux b l = l := by
  induction l with
  | nil => intro b _ _ _; cases b <;> rfl
  | cons c cs ih =>
    intro b hsb hnt hhd
    have hsbcs : spacesAreBlank cs := fun d hd => hsb d (List.mem_cons_of_mem c hd)
    have hntcs : noTwoSpaces cs := hnt.tail
    by_cases hc : isPySpace c
    · have hcsp : c = ' ' := hsb c (List.mem_cons_self c cs) hc
      cases b with
      | true =>
        have := hhd rfl c rfl
        rw [hc] at this; cases this
      | false =>
        rw [show collapseAux false (c :: cs) = ' ' :: collapseAux true cs by
          simp [collapseAux, hc]]
        have hhdcs : headNoSpace cs := by
          intro d hd
          have hpair := (List.chain'_cons'.mp hnt).1 d hd
          by_contra hsp
          exact hpair ⟨hc, by simpa using hsp⟩
        rw [ih true hsbcs hntcs (fun _ => hhdcs), hcsp]
    · rw [show collapseAux b (c :: cs) = c :: collapseAux false cs by simp [collapseAux, hc]]
      rw [ih false hsbcs hntcs (by intro h; cases h)]

theorem dropWhile_eq_self_of_headNoSpace {l : List Char} (h : headNoSpace l) :
    l.dropWhile isPySpace = l := by
  cases l with
  | nil => rfl
  | cons a as =>
    have := h a rfl
    simp [List.dropWhile_cons, this]

theorem stripEnds_eq_self {l : List Char} (h1 : headNoSpace l) (h2 : lastNoSpace l) :
    stripEnds l = l := by
  unfold stripEnds
  rw [dropWhile_eq_self_of_headNoSpace h1]
  have hrev : headNoSpace l.reverse := by
    intro c hc
    rw [List.head?_reverse] at hc
    exact h2 c hc
  rw [dropWhile_eq_self_of_headNoSpace hrev, List.reverse_reverse]

theorem collapseStrip_idem (x : List Char) :
    stripEnds (collapseWs (stripEnds (collapseWs x))) = stripEnds (collapseWs x) := by
  have hsb : spacesAreBlank (stripEnds (collapseWs x)) :=
    spacesAreBlank_stripEnds (collapseAux_spacesAreBlank x false)
  have hnt : noTwoSpaces (stripEnds (collapseWs x)) :=
    noTwoSpaces_stripEnds ((collapseAux_chain_head x).1 false)
  have hh : headNoSpace (stripEnds (collapseWs x)) := headNoSpace_stripEnds _
  have hl : lastNoSpace (stripEnds (collapseWs x)) := lastNoSpace_stripEnds _
  rw [show collapseWs (stripEnds (collapseWs x)) = stripEnds (collapseWs x) from
    collapseAux_eq_self _ false hsb hnt (by intro h; cases h)]
  exact stripEnds_eq_self hh hl

theorem newline_not_mem_of_spacesAreBlank {l : List Char} (h : spacesAreBlank l) : '\n' ∉ l := by
  intro hm
  have := h _ hm (by decide)
  exact absurd this (by decide)

theorem matchTimestamp_eq_none {cs : List Char} (h : '\n' ∉ cs) : matchTimestamp cs = none := by
  simp only [matchTimestamp]
  split
  · rfl
  · split
    · rename_i r1a heq1
      split
      · rfl
      · split
        · rename_i r2a heq2
          split
          · rfl
          · split
            · rename_i hw
              exfalso
              have h3 : '\n' ∈ (r2a.dropWhile Char.isDigit) :=
                (List.takeWhile_sublist _).subset hw
              have h4 : '\n' ∈ r2a := (List.dropWhile_sublist _).subset h3
              have h5 : '\n' ∈ r1a.dropWhile Char.isDigit := by
                rw [heq2]; exact List.mem_cons_of_mem ':' h4
              have h6 : '\n' ∈ r1a := (List.dropWhile_sublist _).subset h5
              have h7 : '\n' ∈ cs.dropWhile Char.isDigit := by
                rw [heq1]; exact List.mem_cons_of_mem ':' h6
              exact h ((List.dropWhile_sublist _).subset h7)
            · rfl
        · rfl
    · rfl

theorem stripTSAux_eq_self : ∀ (fuel : Nat) (cs : List Char), '\n' ∉ cs →
    stripTSAux fuel cs = cs := by
  intro fuel
  induction fuel with
  | zero => intro cs _; rfl
  | succ n ih =>
    intro cs h
    cases cs with
    | nil => rfl
    | cons c cs =>
      rw [show stripTSAux (n + 1) (c :: cs) =
        (match matchTimestamp (c :: cs) with
         | some rest => stripTSAux n rest
         | none => c :: stripTSAux n cs) from rfl]
      rw [matchTimestamp_eq_none h]
      rw [ih cs (fun hm => h (List.mem_cons_of_mem c hm))]

theorem stripTimestamps_eq_self {cs : List Char} (h : '\n' ∉ cs) : stripTimestamps cs = cs :=
  stripTSAux_eq_self cs.length cs h

theorem no_newline_cleanedForm (x : List Char) : '\n' ∉ cleanedForm x :=
  newline_not_mem_of_spacesAreBlank
    (spacesAreBlank_stripEnds (collapseAux_spacesAreBlank (stripTimestamps x) false))

theorem cleanedForm_idem (x : List Char) : cleanedForm (cleanedForm x) = cleanedForm x := by
  show stripEnds (collapseWs (stripTimestamps (cleanedForm x))) = cleanedForm x
  rw [stripTimestamps_eq_self (no_newline_cleanedForm x)]
  exact collapseStrip_idem (stripTimestamps x)

theorem clean_transcript_cases (x : List Char) :
    clean_transcript x = [] ∨
    (clean_transcript x = cleanedForm x ∧ ¬ countTokens (cleanedForm x) < 10 ∧
     hasIndicator (cleanedForm x) = true) := by
  unfold clean_transcript
  by_cases h1 : countTokens (cleanedForm x) < 10
  · left; simp [h1]
  · by_cases h2 : hasIndicator (cleanedForm x) = true
    · right; simp [h1, h2]
    · left; simp [h1, h2]

theorem clean_transcript_fix_of_ne {x : List Char} (hne : clean_transcript x ≠ []) :
    clean_transcript (clean_transcript x) = clean_transcript x ∧
    ¬ countTokens (clean_transcript x) < 10 ∧ hasIndicator (clean_transcript x) = true := by
  rcases clean_transcript_cases x with h0 | ⟨hcf, h10, hind⟩
  · exact absurd h0 hne
  · rw [hcf]
    have hcc : cleanedForm (cleanedForm x) = cleanedForm x := cleanedForm_idem x
    refine ⟨?_, h10, hind⟩
    unfold clean_transcript
    rw [hcc]
    simp [h10, hind]

/-- Claim C7: for every raw transcript text whose cleaned form (after
timestamp stripping, whitespace collapsing and trimming) has fewer
than 10 whitespace-delimited tokens, clean_transcript returns the
empty result, not the cleaned text. -/
theorem c7_short_rejected (text : List Char)
    (h : countTokens (cleanedForm text) < 10) : clean_transcript text = [] := by
  unfold clean_transcript
  simp [h]

theorem c7_short_rejected_witness :
    countTokens (cleanedForm ['h','i']) < 10 ∧ clean_transcript ['h','i'] = [] :=
  ⟨by decide, c7_short_rejected ['h','i'] (by decide)⟩

/-- Claim C8, counterexample: badRaw contains none of the 14 indicator
words (even after lowercasing), yet clean_transcript accepts it,
because removing the timestamp pattern glues the letters ya and ng
into the indicator word yang inside the cleaned text.  So a text with
zero indicator words is not always rejected. -/
theorem c8_counterexample :
    (indonesian_indicators.all (fun w => !(occursIn w (lowerList badRaw)))) = true ∧
    clean_transcript badRaw ≠ [] := by
  constructor
  · decide
  · decide

/-- Claim C8, amended: for every raw transcript text whose cleaned
form (timestamp-stripped, whitespace-collapsed, trimmed) contains,
after lowercasing, none of the 14 indicator words as substrings,
clean_transcript returns the empty result regardless of length. -/
theorem c8_no_indicator_rejected (text : List Char)
    (h : hasIndicator (cleanedForm text) = false) : clean_transcript text = [] := by
  unfold clean_transcript
  by_cases h1 : countTokens (cleanedForm text) < 10
  · simp [h1]
  · simp [h1, h]

theorem c8_no_indicator_rejected_witness :
    hasIndicator (cleanedForm xsText) = false ∧ clean_transcript xsText = [] :=
  ⟨by decide, c8_no_indicator_rejected xsText (by decide)⟩

/-- Claim C10: clean_transcript is idempotent — a rejected input maps
to the empty result, whose cleaning is again empty, and an accepted
output is already timestamp-free, single-spaced, trimmed and passes
both filters, so it is accepted again unchanged. -/
theorem c10_normalize_idempotent (s : List Char) :
    clean_transcript (clean_transcript s) = clean_transcript s := by
  by_cases h : clean_transcript s = []
  · rw [h]; decide
  · exact (clean_transcript_fix_of_ne h).1

theorem whisperOldGo_result_image {l : List AttemptOutcome} {fe : Bool} {t : List Char}
    (h : (whisperOldGo l fe).result = some t) : ∃ raw, t = clean_transcript raw := by
  induction l generalizing fe with
  | nil => simp [whisperOldGo] at h
  | cons o rest ih =>
    cases o with
    | failBeforeDownload => exact ih (by simpa [whisperOldGo] using h)
    | failAfterDownload => exact ih (by simpa [whisperOldGo] using h)
    | succeed raw =>
      simp [whisperOldGo] at h
      exact ⟨raw, h.symm⟩

theorem get_transcript_with_whisper_old_image {env : WhisperEnvOld} {t : List Char}
    (h : (get_transcript_with_whisper_old env).result = some t) :
    ∃ raw, t = clean_transcript raw := by
  unfold get_transcript_with_whisper_old at h
  by_cases hy : env.ytOk = true
  · rw [if_pos hy] at h
    exact whisperOldGo_result_image h
  · rw [if_neg hy] at h
    simp at h


theorem genLoop_image {l : List GenTrack} {t lc : List Char} (h : genLoop l = some (t, lc)) :
    ∃ raw, t = clean_transcript raw := by
  induction l with
  | nil => simp [genLoop] at h
  | cons tr rest ih =>
    rw [genLoop] at h
    split at h
    · split at h
      · cases h
      · rename_i texts heq
        split at h
        · exact ih h
        · cases h
          exact ⟨joinSp texts, rfl⟩
    · exact ih h

theorem get_transcript_image {env : ResolveEnv} {d : TranscriptData}
    (h : (get_transcript env).1 = some d) : ∃ raw, d.text = clean_transcript raw := by
  unfold get_transcript at h
  cases hn : env.native with
  | cues texts lang =>
    rw [hn] at h
    dsimp only at h
    split at h
    · cases h
    · cases h
      exact ⟨joinSp texts, rfl⟩
  | apiError => rw [hn] at h; cases h
  | noTranscriptFound =>
    rw [hn] at h
    dsimp only at h
    split at h
    · rename_i cleaned lc heq
      cases h
      cases hg : env.genTracks with
      | none => rw [hg] at heq; cases heq
      | some l =>
        rw [hg] at heq
        exact genLoop_image heq
    · split at h
      · split at h
        · cases h
        · cases h
          rename_i t hw _
          exact get_transcript_with_whisper_old_image hw
      · cases h
  | transcriptsDisabled =>
    rw [hn] at h
    dsimp only at h
    split at h
    · rename_i cleaned lc heq
      cases h
      cases hg : env.genTracks with
      | none => rw [hg] at heq; cases heq
      | some l =>
        rw [hg] at heq
        exact genLoop_image heq
    · split at h
      · split at h
        · cases h
        · cases h
          rename_i t hw _
          exact get_transcript_with_whisper_old_image hw
      · cases h

theorem goBC_store_mono (env : BuildEnv) :
    ∀ (vs : List Video) (st : Store) (n : Nat) (tr : RunTrace),
      st.processed ⊆ (goBC env st vs n tr).store.processed ∧
      st.corpus ⊆ (goBC env st vs n tr).store.corpus := by
  intro vs
  induction vs with
  | nil => intro st n tr; exact ⟨fun x hx => hx, fun x hx => hx⟩
  | cons v rest ih =>
    intro st n tr
    rw [goBC]
    split
    · exact ih st n tr
    · split
      · exact ⟨fun x hx => hx, fun x hx => hx⟩
      · exact ih st n _
      · split
        · split
          · have h2 := ih ⟨st.corpus, st.processed ++ [v.vid]⟩ n
              ⟨tr.resolved ++ [v.vid], tr.claimed ++ [v.vid]⟩
            exact ⟨fun x hx => h2.1 (List.mem_append_left _ hx), h2.2⟩
          · rename_i d _ _
            have h2 := ih ⟨st.corpus ++ [mkEntry v d], st.processed ++ [v.vid]⟩ (n + 1)
              ⟨tr.resolved ++ [v.vid], tr.claimed ++ [v.vid]⟩
            exact ⟨fun x hx => h2.1 (List.mem_append_left _ hx),
                   fun x hx => h2.2 (List.mem_append_left _ hx)⟩
        · have h2 := ih ⟨st.corpus, st.processed ++ [v.vid]⟩ n
            ⟨tr.resolved ++ [v.vid], tr.claimed ++ [v.vid]⟩
          exact ⟨fun x hx => h2.1 (List.mem_append_left _ hx), h2.2⟩

theorem mem_of_append_single {id x : List Char} {l : List (List Char)}
    (h : id ∈ l ++ [x]) (hne : id ≠ x) : id ∈ l := by
  rcases List.mem_append.mp h with h | h
  · exact h
  · exact absurd (List.mem_singleton.mp h) hne

theorem mem_corpusIds_append {st : Store} {e : CorpusEntry} {id : List Char}
    (p : List (List Char)) (h : id ∈ corpusIds st) :
    id ∈ corpusIds ⟨st.corpus ++ [e], p⟩ := by
  unfold corpusIds at h ⊢
  rw [List.map_append]
  exact List.mem_append_left _ h

theorem goBC_not_resolved_of_mem (env : BuildEnv) :
    ∀ (vs : List Video) (st : Store) (n : Nat) (tr : RunTrace) (id : List Char),
      (id ∈ st.processed ∨ id ∈ corpusIds st) →
      id ∈ (goBC env st vs n tr).trace.resolved → id ∈ tr.resolved := by
  intro vs
  induction vs with
  | nil => intro st n tr id _ hres; exact hres
  | cons v rest ih =>
    intro st n tr id hmem hres
    by_cases hskip : v.vid ∈ st.processed ∨ v.vid ∈ corpusIds st
    · rw [goBC, if_pos hskip] at hres
      exact ih st n tr id hmem hres
    · have hne : id ≠ v.vid := by
        intro he; subst he; exact hskip hmem
      rw [goBC, if_neg hskip] at hres
      cases hco : env.commitOutcome v.vid with
      | otherError =>
        rw [hco] at hres
        dsimp only at hres
        exact mem_of_append_single hres hne
      | integrityError =>
        rw [hco] at hres
        dsimp only at hres
        exact mem_of_append_single (ih st n ⟨tr.resolved ++ [v.vid], tr.claimed⟩ id hmem hres) hne
      | ok =>
        rw [hco] at hres
        dsimp only at hres
        cases htd : (get_transcript (env.resolveEnvOf v.vid)).1 with
        | some d =>
          rw [htd] at hres
          dsimp only at hres
          by_cases hemp : d.text.isEmpty = true
          · rw [if_pos hemp] at hres
            have hmem2 : id ∈ (⟨st.corpus, st.processed ++ [v.vid]⟩ : Store).processed ∨
                id ∈ corpusIds ⟨st.corpus, st.processed ++ [v.vid]⟩ := by
              rcases hmem with h | h
              · exact Or.inl (List.mem_append_left _ h)
              · exact Or.inr h
            exact mem_of_append_single (ih _ n _ id hmem2 hres) hne
          · rw [if_neg hemp] at hres
            have hmem2 : id ∈ (⟨st.corpus ++ [mkEntry v d],
                  st.processed ++ [v.vid]⟩ : Store).processed ∨
                id ∈ corpusIds ⟨st.corpus ++ [mkEntry v d], st.processed ++ [v.vid]⟩ := by
              rcases hmem with h | h
              · exact Or.inl (List.mem_append_left _ h)
              · exact Or.inr (mem_corpusIds_append _ h)
            exact mem_of_append_single (ih _ (n + 1) _ id hmem2 hres) hne
        | none =>
          rw [htd] at hres
          dsimp only at hres
          have hmem2 : id ∈ (⟨st.corpus, st.processed ++ [v.vid]⟩ : Store).processed ∨
              id ∈ corpusIds ⟨st.corpus, st.processed ++ [v.vid]⟩ := by
            rcases hmem with h | h
            · exact Or.inl (List.mem_append_left _ h)
            · exact Or.inr h
          exact mem_of_append_single (ih _ n _ id hmem2 hres) hne


theorem goBC_claimed_processed (env : BuildEnv) :
    ∀ (vs : List Video) (st : Store) (n : Nat) (tr : RunTrace) (id : List Char),
      id ∈ (goBC env st vs n tr).trace.claimed →
      id ∈ tr.claimed ∨ id ∈ (goBC env st vs n tr).store.processed := by
  intro vs
  induction vs with
  | nil => intro st n tr id hcl; exact Or.inl hcl
  | cons v rest ih =>
    intro st n tr id hcl
    by_cases hskip : v.vid ∈ st.processed ∨ v.vid ∈ corpusIds st
    · rw [goBC, if_pos hskip] at hcl ⊢
      exact ih st n tr id hcl
    · rw [goBC, if_neg hskip] at hcl ⊢
      cases hco : env.commitOutcome v.vid with
      | otherError =>
        rw [hco] at hcl
        dsimp only at hcl ⊢
        exact Or.inl hcl
      | integrityError =>
        rw [hco] at hcl
        dsimp only at hcl ⊢
        exact ih st n ⟨tr.resolved ++ [v.vid], tr.claimed⟩ id hcl
      | ok =>
        rw [hco] at hcl
        dsimp only at hcl ⊢
        cases htd : (get_transcript (env.resolveEnvOf v.vid)).1 with
        | some d =>
          rw [htd] at hcl
          dsimp only at hcl ⊢
          by_cases hemp : d.text.isEmpty = true
          · rw [if_pos hemp] at hcl ⊢
            rcases ih ⟨st.corpus, st.processed ++ [v.vid]⟩ n
                ⟨tr.resolved ++ [v.vid], tr.claimed ++ [v.vid]⟩ id hcl with h | h
            · rcases List.mem_append.mp h with h | h
              · exact Or.inl h
              · right
                have hv : id ∈ (⟨st.corpus, st.processed ++ [v.vid]⟩ : Store).processed :=
                  List.mem_append_right _ h
                exact (goBC_store_mono env rest _ n _).1 hv
            · exact Or.inr h
          · rw [if_neg hemp] at hcl ⊢
            rcases ih ⟨st.corpus ++ [mkEntry v d], st.processed ++ [v.vid]⟩ (n + 1)
                ⟨tr.resolved ++ [v.vid], tr.claimed ++ [v.vid]⟩ id hcl with h | h
            · rcases List.mem_append.mp h with h | h
              · exact Or.inl h
              · right
                have hv : id ∈ (⟨st.corpus ++ [mkEntry v d],
                    st.processed ++ [v.vid]⟩ : Store).processed :=
                  List.mem_append_right _ h
                exact (goBC_store_mono env rest _ (n + 1) _).1 hv
            · exact Or.inr h
        | none =>
          rw [htd] at hcl
          dsimp only at hcl ⊢
          rcases ih ⟨st.corpus, st.processed ++ [v.vid]⟩ n
              ⟨tr.resolved ++ [v.vid], tr.claimed ++ [v.vid]⟩ id hcl with h | h
          · rcases List.mem_append.mp h with h | h
            · exact Or.inl h
            · right
              have hv : id ∈ (⟨st.corpus, st.processed ++ [v.vid]⟩ : Store).processed :=
                List.mem_append_right _ h
              exact (goBC_store_mono env rest _ n _).1 hv
          · exact Or.inr h

theorem goBC_no_abort (env : BuildEnv)
    (hno : ∀ id, env.commitOutcome id ≠ CommitOutcome.otherError) :
    ∀ (vs : List Video) (st : Store) (n : Nat) (tr : RunTrace),
      (goBC env st vs n tr).err = false := by
  intro vs
  induction vs with
  | nil => intro st n tr; rfl
  | cons v rest ih =>
    intro st n tr
    by_cases hskip : v.vid ∈ st.processed ∨ v.vid ∈ corpusIds st
    · rw [goBC, if_pos hskip]
      exact ih st n tr
    · rw [goBC, if_neg hskip]
      cases hco : env.commitOutcome v.vid with
      | otherError => exact absurd hco (hno v.vid)
      | integrityError =>
        dsimp only
        exact ih st n _
      | ok =>
        dsimp only
        cases htd : (get_transcript (env.resolveEnvOf v.vid)).1 with
        | some d =>
          dsimp only
          by_cases hemp : d.text.isEmpty = true
          · rw [if_pos hemp]; exact ih ⟨st.corpus, st.processed ++ [v.vid]⟩ n _
          · rw [if_neg hemp]; exact ih ⟨st.corpus ++ [mkEntry v d],
              st.processed ++ [v.vid]⟩ (n + 1) _
        | none =>
          dsimp only
          exact ih ⟨st.corpus, st.processed ++ [v.vid]⟩ n _

theorem goBC_corpus_new (env : BuildEnv) :
    ∀ (vs : List Video) (st : Store) (n : Nat) (tr : RunTrace),
      ∀ e ∈ (goBC env st vs n tr).store.corpus,
        e ∈ st.corpus ∨
        ∃ raw, e.transcript_text = clean_transcript raw ∧ e.transcript_text ≠ [] := by
  intro vs
  induction vs with
  | nil => intro st n tr e he; exact Or.inl he
  | cons v rest ih =>
    intro st n tr e he
    by_cases hskip : v.vid ∈ st.processed ∨ v.vid ∈ corpusIds st
    · rw [goBC, if_pos hskip] at he
      exact ih st n tr e he
    · rw [goBC, if_neg hskip] at he
      cases hco : env.commitOutcome v.vid with
      | otherError =>
        rw [hco] at he
        dsimp only at he
        exact Or.inl he
      | integrityError =>
        rw [hco] at he
        dsimp only at he
        exact ih st n _ e he
      | ok =>
        rw [hco] at he
        dsimp only at he
        cases htd : (get_transcript (env.resolveEnvOf v.vid)).1 with
        | some d =>
          rw [htd] at he
          dsimp only at he
          by_cases hemp : d.text.isEmpty = true
          · rw [if_pos hemp] at he
            exact ih ⟨st.corpus, st.processed ++ [v.vid]⟩ n _ e he
          · rw [if_neg hemp] at he
            rcases ih ⟨st.corpus ++ [mkEntry v d], st.processed ++ [v.vid]⟩ (n + 1)
                ⟨tr.resolved ++ [v.vid], tr.claimed ++ [v.vid]⟩ e he with h | h
            · rcases List.mem_append.mp h with h | h
              · exact Or.inl h
              · right
                have hed : e = mkEntry v d := List.mem_singleton.mp h
                obtain ⟨raw, hraw⟩ := get_transcript_image htd
                have htext : e.transcript_text = d.text := by rw [hed]; rfl
                refine ⟨raw, ?_, ?_⟩
                · rw [htext, hraw]
                · rw [htext]
                  intro hnil
                  rw [hnil] at hemp
                  exact hemp rfl
            · exact Or.inr h
        | none =>
          rw [htd] at he
          dsimp only at he
          exact ih ⟨st.corpus, st.processed ++ [v.vid]⟩ n _ e he

theorem whisperOldGo_attempts_le (l : List AttemptOutcome) : ∀ fe : Bool,
    (whisperOldGo l fe).attemptsMade ≤ l.length := by
  induction l with
  | nil => intro fe; exact Nat.le_refl 0
  | cons o rest ih =>
    intro fe
    cases o with
    | failBeforeDownload =>
      have := ih fe
      show (whisperOldGo rest fe).attemptsMade + 1 ≤ rest.length + 1
      omega
    | failAfterDownload =>
      have := ih true
      show (whisperOldGo rest true).attemptsMade + 1 ≤ rest.length + 1
      omega
    | succeed raw =>
      show 1 ≤ rest.length + 1
      omega

theorem attempts3_length (env : WhisperEnvOld) : (attempts3 env).length = 3 := by
  unfold attempts3
  rw [List.length_take, List.length_append, List.length_replicate]
  omega

theorem whisperOldGo_all_fail : ∀ (l : List AttemptOutcome),
    (∀ o ∈ l, o.isSuccess = false) → ∀ fe : Bool,
    (whisperOldGo l fe).result = none ∧
    (whisperOldGo l fe).attemptsMade = l.length ∧
    (whisperOldGo l fe).sleeps = l.length := by
  intro l
  induction l with
  | nil => intro _ fe; exact ⟨rfl, rfl, rfl⟩
  | cons o rest ih =>
    intro h fe
    cases o with
    | succeed raw =>
      have := h _ (List.mem_cons_self _ _)
      simp [AttemptOutcome.isSuccess] at this
    | failBeforeDownload =>
      have hr := ih (fun o ho => h o (List.mem_cons_of_mem _ ho)) fe
      refine ⟨hr.1, ?_, ?_⟩
      · show (whisperOldGo rest fe).attemptsMade + 1 = rest.length + 1
        rw [hr.2.1]
      · show (whisperOldGo rest fe).sleeps + 1 = rest.length + 1
        rw [hr.2.2]
    | failAfterDownload =>
      have hr := ih (fun o ho => h o (List.mem_cons_of_mem _ ho)) true
      refine ⟨hr.1, ?_, ?_⟩
      · show (whisperOldGo rest true).attemptsMade + 1 = rest.length + 1
        rw [hr.2.1]
      · show (whisperOldGo rest true).sleeps + 1 = rest.length + 1
        rw [hr.2.2]

theorem get_transcript_unavailable {env : ResolveEnv}
    (hn : env.native = NativeOutcome.noTranscriptFound ∨
          env.native = NativeOutcome.transcriptsDisabled)
    (hg : genExhausted env.genTracks = true)
    (hw : (get_transcript_with_whisper_old env.whisper).result = none) :
    (get_transcript env).1 = none := by
  have hgen : (match env.genTracks with | none => none | some l => genLoop l) =
      (none : Option (List Char × List Char)) := by
    cases hgt : env.genTracks with
    | none => rfl
    | some l =>
      rw [hgt] at hg
      exact Option.isNone_iff_eq_none.mp hg
  rcases hn with hn | hn
  · unfold get_transcript
    rw [hn]
    dsimp only
    rw [hgen]
    dsimp only
    rw [hw]
  · unfold get_transcript
    rw [hn]
    dsimp only
    rw [hgen]
    dsimp only
    rw [hw]

/-- Claim C3, counterexample: in env3 the native call raises
NoTranscriptFound, the generated-caption tier fetches a text the
normalizer rejects, and yet resolution does not stop there: the local
tier is invoked and its transcript is returned.  So a tier producing
normalizer-rejected text does not always end resolution. -/
theorem c3_counterexample :
    clean_transcript (joinSp [shortT]) = [] ∧
    (get_transcript env3).1 ≠ none ∧
    Tier.localT ∈ (get_transcript env3).2 := by
  refine ⟨by decide, by decide, by decide⟩

/-- Claim C3, amended: only in the native-caption tier does a
normalizer rejection end resolution — the call returns no transcript
and no later tier is invoked.  In the generated-caption tier a
rejected text falls through to the remaining tracks and then to the
local tier: whenever the generated tier produces nothing accepted,
the local tier is invoked. -/
theorem c3_first_tier_termination (env : ResolveEnv) (texts : List (List Char))
    (lang : List Char) :
    (env.native = NativeOutcome.cues texts lang →
      clean_transcript (joinSp texts) = [] →
      (get_transcript env).1 = none ∧ (get_transcript env).2 = [Tier.nativeT])
    ∧ ((env.native = NativeOutcome.noTranscriptFound ∨
        env.native = NativeOutcome.transcriptsDisabled) →
       genExhausted env.genTracks = true →
       Tier.localT ∈ (get_transcript env).2) := by
  constructor
  · intro hn hrej
    unfold get_transcript
    rw [hn]
    dsimp only
    rw [hrej]
    exact ⟨rfl, rfl⟩
  · intro hn hex
    have hgen : (match env.genTracks with | none => none | some l => genLoop l) =
        (none : Option (List Char × List Char)) := by
      cases hgt : env.genTracks with
      | none => rfl
      | some l =>
        rw [hgt] at hex
        exact Option.isNone_iff_eq_none.mp hex
    rcases hn with hn | hn
    · unfold get_transcript
      rw [hn]
      dsimp only
      rw [hgen]
      dsimp only
      split
      · split
        · dsimp only
          decide
        · dsimp only
          decide
      · dsimp only
        decide
    · unfold get_transcript
      rw [hn]
      dsimp only
      rw [hgen]
      dsimp only
      split
      · split
        · dsimp only
          decide
        · dsimp only
          decide
      · dsimp only
        decide

theorem c3_first_tier_termination_witness :
    ((get_transcript envNativeRej).1 = none ∧
     (get_transcript envNativeRej).2 = [Tier.nativeT]) ∧
    Tier.localT ∈ (get_transcript envNone).2 := by
  have h1 := (c3_first_tier_termination envNativeRej [shortT] ['e','n']).1 rfl (by decide)
  have h2 := (c3_first_tier_termination envNone [] []).2 (Or.inl rfl) (by decide)
  exact ⟨h1, h2⟩

/-- The pytube retry loop makes at most as many attempts as there are
outcomes in the list. -/
theorem pWhisperGo_attempts_le (l : List PAttemptOutcome) : ∀ fe : Bool,
    (pWhisperGo l fe).attemptsMade ≤ l.length := by
  induction l with
  | nil => intro fe; exact Nat.le_refl 0
  | cons o rest ih =>
    intro fe
    cases o with
    | noStream =>
      show 1 ≤ rest.length + 1
      omega
    | transientBefore =>
      have := ih fe
      show (pWhisperGo rest fe).attemptsMade + 1 ≤ rest.length + 1
      omega
    | transientAfter =>
      have := ih true
      show (pWhisperGo rest true).attemptsMade + 1 ≤ rest.length + 1
      omega
    | emptyFile w =>
      have := ih (fe || w)
      show (pWhisperGo rest (fe || w)).attemptsMade + 1 ≤ rest.length + 1
      omega
    | ok raw =>
      show 1 ≤ rest.length + 1
      omega

theorem pAttempts3_length (env : PWhisperEnv) : (pAttempts3 env).length = 3 := by
  unfold pAttempts3
  rw [List.length_take, List.length_append, List.length_replicate]
  omega

/-- When every attempt of the pytube retry loop fails, the loop
returns no transcript after running all the attempts, and the number
of one-second pauses equals the number of attempts that failed by
raising — the empty-file failures retry with no pause. -/
theorem pWhisperGo_all_fail : ∀ (l : List PAttemptOutcome),
    (∀ o ∈ l, o.isFail = true) → ∀ fe : Bool,
    (pWhisperGo l fe).result = none ∧
    (pWhisperGo l fe).attemptsMade = l.length ∧
    (pWhisperGo l fe).sleeps = l.countP (fun o => o.isTransientFail) := by
  intro l
  induction l with
  | nil => intro _ fe; exact ⟨rfl, rfl, rfl⟩
  | cons o rest ih =>
    intro h fe
    cases o with
    | noStream =>
      have := h _ (List.mem_cons_self _ _)
      simp [PAttemptOutcome.isFail] at this
    | ok raw =>
      have := h _ (List.mem_cons_self _ _)
      simp [PAttemptOutcome.isFail] at this
    | transientBefore =>
      have hr := ih (fun o ho => h o (List.mem_cons_of_mem _ ho)) fe
      refine ⟨hr.1, ?_, ?_⟩
      · show (pWhisperGo rest fe).attemptsMade + 1 = rest.length + 1
        rw [hr.2.1]
      · show (pWhisperGo rest fe).sleeps + 1 =
          (PAttemptOutcome.transientBefore :: rest).countP (fun o => o.isTransientFail)
        rw [hr.2.2]
        simp [List.countP_cons, PAttemptOutcome.isTransientFail]
    | transientAfter =>
      have hr := ih (fun o ho => h o (List.mem_cons_of_mem _ ho)) true
      refine ⟨hr.1, ?_, ?_⟩
      · show (pWhisperGo rest true).attemptsMade + 1 = rest.length + 1
        rw [hr.2.1]
      · show (pWhisperGo rest true).sleeps + 1 =
          (PAttemptOutcome.transientAfter :: rest).countP (fun o => o.isTransientFail)
        rw [hr.2.2]
        simp [List.countP_cons, PAttemptOutcome.isTransientFail]
    | emptyFile w =>
      have hr := ih (fun o ho => h o (List.mem_cons_of_mem _ ho)) (fe || w)
      refine ⟨hr.1, ?_, ?_⟩
      · show (pWhisperGo rest (fe || w)).attemptsMade + 1 = rest.length + 1
        rw [hr.2.1]
      · show (pWhisperGo rest (fe || w)).sleeps =
          (PAttemptOutcome.emptyFile w :: rest).countP (fun o => o.isTransientFail)
        rw [hr.2.2]
        simp [List.countP_cons, PAttemptOutcome.isTransientFail]

/-- Claim C4, counterexample: in the pytube_scraper variant of the
local tier, an attempt whose download leaves a missing or empty file
retries immediately — the one-second pause sits only in the exception
handler.  With three such failed attempts the tier returns no
transcript after 3 attempts having paused zero times, so the tier does
not pause a fixed 1 second after each transient failure. -/
theorem c4_counterexample :
    (get_transcript_with_whisper_pytube penvEmpty).result = none ∧
    (get_transcript_with_whisper_pytube penvEmpty).attemptsMade = 3 ∧
    (get_transcript_with_whisper_pytube penvEmpty).sleeps = 0 := by
  refine ⟨by decide, by decide, by decide⟩

/-- Claim C4, amended: both local-transcription variants attempt the
download-and-transcribe step at most 3 times, and when all 3 attempts
fail they return no transcript after exactly 3 attempts, so resolution
(native captions missing, generated tier exhausted) is Unavailable and
the pipeline performs no further retry — an id marked processed is
never resolved again by a later run.  The fixed one-second pause
follows every failed attempt in the old_scraper variant, but in the
pytube_scraper variant only the attempts that fail by raising an
exception: a download that leaves a missing or empty file retries
without a pause. -/
theorem c4_local_retry_amended (wenv : WhisperEnvOld) (renv : ResolveEnv)
    (penv : PWhisperEnv) :
    (get_transcript_with_whisper_old wenv).attemptsMade ≤ 3
    ∧ ((∀ o ∈ attempts3 wenv, o.isSuccess = false) → wenv.ytOk = true →
        (get_transcript_with_whisper_old wenv).result = none ∧
        (get_transcript_with_whisper_old wenv).attemptsMade = 3 ∧
        (get_transcript_with_whisper_old wenv).sleeps = 3)
    ∧ ((renv.native = NativeOutcome.noTranscriptFound ∨
        renv.native = NativeOutcome.transcriptsDisabled) →
       genExhausted renv.genTracks = true →
       (get_transcript_with_whisper_old renv.whisper).result = none →
       (get_transcript renv).1 = none)
    ∧ (∀ (benv benv2 : BuildEnv) (st : Store) (id : List Char),
        id ∈ (build_corpus benv st).store.processed →
        id ∉ (build_corpus benv2 (build_corpus benv st).store).trace.resolved)
    ∧ (get_transcript_with_whisper_pytube penv).attemptsMade ≤ 3
    ∧ ((∀ o ∈ pAttempts3 penv, o.isFail = true) → penv.ytOk = true →
        (get_transcript_with_whisper_pytube penv).result = none ∧
        (get_transcript_with_whisper_pytube penv).attemptsMade = 3 ∧
        (get_transcript_with_whisper_pytube penv).sleeps =
          (pAttempts3 penv).countP (fun o => o.isTransientFail)) := by
  refine ⟨?_, ?_, ?_, ?_, ?_, ?_⟩
  · unfold get_transcript_with_whisper_old
    by_cases hy : wenv.ytOk = true
    · rw [if_pos hy]
      have h := whisperOldGo_attempts_le (attempts3 wenv) false
      rw [attempts3_length wenv] at h
      exact h
    · rw [if_neg hy]
      exact Nat.zero_le 3
  · intro hall hy
    unfold get_transcript_with_whisper_old
    rw [if_pos hy]
    have h := whisperOldGo_all_fail (attempts3 wenv) hall false
    rw [attempts3_length wenv] at h
    exact h
  · intro hn hex hw
    exact get_transcript_unavailable hn hex hw
  · intro benv benv2 st id hmem hres
    have h := goBC_not_resolved_of_mem benv2 _ _ 0 ⟨[], []⟩ id (Or.inl hmem) hres
    exact (List.not_mem_nil id) h
  · unfold get_transcript_with_whisper_pytube
    by_cases hy : penv.ytOk = true
    · rw [if_pos hy]
      show (pWhisperGo (pAttempts3 penv) false).attemptsMade ≤ 3
      have h := pWhisperGo_attempts_le (pAttempts3 penv) false
      rw [pAttempts3_length penv] at h
      exact h
    · rw [if_neg hy]
      exact Nat.zero_le 3
  · intro hall hy
    unfold get_transcript_with_whisper_pytube
    rw [if_pos hy]
    have h := pWhisperGo_all_fail (pAttempts3 penv) hall false
    rw [pAttempts3_length penv] at h
    exact ⟨h.1, h.2.1, h.2.2⟩

theorem c4_local_retry_amended_witness :
    (get_transcript_with_whisper_old wenvAllFail).result = none ∧
    (get_transcript_with_whisper_old wenvAllFail).attemptsMade = 3 ∧
    (get_transcript_with_whisper_old wenvAllFail).sleeps = 3 ∧
    (get_transcript envAllFail).1 = none ∧
    ['v','1'] ∉ (build_corpus benvA (build_corpus benvA stOld).store).trace.resolved ∧
    (get_transcript_with_whisper_pytube penvMixed).result = none ∧
    (get_transcript_with_whisper_pytube penvMixed).attemptsMade = 3 ∧
    (get_transcript_with_whisper_pytube penvMixed).sleeps = 2 := by
  have h := c4_local_retry_amended wenvAllFail envAllFail penvMixed
  have h2 := h.2.1 (by decide) (by decide)
  have hp := h.2.2.2.2.2 (by decide) (by decide)
  have hc : (pAttempts3 penvMixed).countP (fun o => o.isTransientFail) = 2 := by decide
  refine ⟨h2.1, h2.2.1, h2.2.2, ?_, ?_, hp.1, hp.2.1, ?_⟩
  · exact h.2.2.1 (Or.inl rfl) (by decide) (by decide)
  · exact h.2.2.2.1 benvA benvA stOld ['v','1'] (by decide)
  · rw [hp.2.2, hc]

theorem applyCleanupFinally_fileExists (r : WhisperRun) :
    (applyCleanupFinally r).fileExists = false := by
  unfold applyCleanupFinally
  dsimp only
  by_cases h : r.fileExists = true
  · rw [if_pos h]
  · rw [if_neg h]
    simpa using h

/-- Claim C5, counterexample: in the old_scraper variant of the local
tier there is no finally-based cleanup; when every attempt fails after
the audio file was written, the tier returns no transcript after its
3 attempts and the transient audio file still exists on disk. -/
theorem c5_counterexample :
    (get_transcript_with_whisper_old wenvBad).result = none ∧
    (get_transcript_with_whisper_old wenvBad).attemptsMade = 3 ∧
    (get_transcript_with_whisper_old wenvBad).fileExists = true := by
  refine ⟨by decide, by decide, by decide⟩

/-- Claim C5, amended: in the pytube_scraper variant, whose finally
block removes the audio file when it exists, the transient audio file
does not exist on disk when the tier returns, on every exit path —
successful transcription, no-stream return, exhausted retries, and
exception. -/
theorem c5_pytube_cleanup_all_paths (penv : PWhisperEnv) :
    (get_transcript_with_whisper_pytube penv).fileExists = false := by
  unfold get_transcript_with_whisper_pytube
  by_cases hy : penv.ytOk = true
  · rw [if_pos hy]
    exact applyCleanupFinally_fileExists _
  · rw [if_neg hy]
    exact applyCleanupFinally_fileExists _

/-- Claim C2: an id already holding a processed marker or a corpus row
when a run begins is skipped — the run never invokes the resolver for
it; and an id whose claim was committed during a run (in particular
one whose resolution returned no transcript) is in the processed
table afterwards, so no subsequent run invokes the resolver for it. -/
theorem c2_rerun_idempotent (env env2 : BuildEnv) (st : Store) (id : List Char) :
    ((id ∈ st.processed ∨ id ∈ corpusIds st) →
      id ∉ (build_corpus env st).trace.resolved)
    ∧ (id ∈ (build_corpus env st).trace.claimed →
       (get_transcript (env.resolveEnvOf id)).1 = none →
       id ∈ (build_corpus env st).store.processed ∧
       id ∉ (build_corpus env2 (build_corpus env st).store).trace.resolved) := by
  constructor
  · intro hmem hres
    have h := goBC_not_resolved_of_mem env _ st 0 ⟨[], []⟩ id hmem hres
    exact (List.not_mem_nil id) h
  · intro hcl _
    have h1 : id ∈ (build_corpus env st).store.processed := by
      rcases goBC_claimed_processed env _ st 0 ⟨[], []⟩ id hcl with h | h
      · exact absurd h (List.not_mem_nil id)
      · exact h
    refine ⟨h1, ?_⟩
    intro hres2
    have h := goBC_not_resolved_of_mem env2 _ _ 0 ⟨[], []⟩ id (Or.inl h1) hres2
    exact (List.not_mem_nil id) h

theorem c2_rerun_idempotent_witness :
    ['v','9'] ∉ (build_corpus benvA stOld).trace.resolved ∧
    ['v','1'] ∈ (build_corpus benvA stOld).store.processed ∧
    ['v','1'] ∉ (build_corpus benvA (build_corpus benvA stOld).store).trace.resolved := by
  have h9 := (c2_rerun_idempotent benvA benvA stOld ['v','9']).1 (Or.inl (by decide))
  have h1 := (c2_rerun_idempotent benvA benvA stOld ['v','1']).2 (by decide) (by decide)
  exact ⟨h9, h1.1, h1.2⟩

/-- Claim C6, counterexample: a failed candidate fetch is absorbed
inside search_videos, so the run over benvFetchFail (whose fetch
failed) completes normally instead of propagating a batch-level
failure; and in benvAbort a single non-IntegrityError commit failure
on the first candidate aborts the whole batch — the second candidate
is never resolved — instead of being caught and skipped. -/
theorem c6_counterexample :
    benvFetchFail.search.fetchFailed = true ∧
    (build_corpus benvFetchFail stEmpty).err = false ∧
    (build_corpus benvAbort stEmpty).err = true ∧
    (build_corpus benvAbort stEmpty).trace.resolved = [['v','1']] := by
  refine ⟨rfl, by decide, by decide, by decide⟩

/-- Claim C6, amended: build_corpus absorbs per-video
uniqueness-conflict (IntegrityError) commit failures and continues,
resolution failures are absorbed inside the resolver, and a
VideoSource fetch failure is absorbed inside search_videos, which
returns the candidates collected before the failure — so a run whose
commits raise at worst IntegrityError finishes without a batch-level
failure; only a non-IntegrityError commit failure propagates. -/
theorem c6_absorbs_if_no_store_failure (env : BuildEnv) (st : Store)
    (sv : SearchEnv) (mr : Nat)
    (h : ∀ id, env.commitOutcome id ≠ CommitOutcome.otherError) :
    (build_corpus env st).err = false ∧ search_videos sv mr = sv.fetched.take mr :=
  ⟨goBC_no_abort env h _ st 0 _, rfl⟩

theorem c6_absorbs_witness :
    (build_corpus benvAbsorb stEmpty).err = false ∧
    search_videos ⟨[vA], true⟩ 5 = [vA] := by
  have h := c6_absorbs_if_no_store_failure benvAbsorb stEmpty ⟨[vA], true⟩ 5
    (fun id => by
      show (if id = vA.vid then CommitOutcome.integrityError else CommitOutcome.ok) ≠
        CommitOutcome.otherError
      split
      · intro hc; cases hc
      · intro hc; cases hc)
  exact ⟨h.1, h.2⟩

/-- Claim C9: every corpus row committed by a run (a row in the final
store that was not in the initial one) carries a transcript_text that
is a non-empty fixed point of the normalizer: it is non-empty, has at
least 10 whitespace-delimited tokens, contains an indicator word, and
clean_transcript maps it to itself — because the pipeline commits only
texts the resolver produced, which are all accepted outputs of
clean_transcript. -/
theorem c9_committed_entry_normal (env : BuildEnv) (st : Store) (e : CorpusEntry)
    (he : e ∈ (build_corpus env st).store.corpus) (hnew : e ∉ st.corpus) :
    e.transcript_text ≠ [] ∧ ¬ countTokens e.transcript_text < 10 ∧
    hasIndicator e.transcript_text = true ∧
    clean_transcript e.transcript_text = e.transcript_text := by
  rcases goBC_corpus_new env _ st 0 ⟨[], []⟩ e he with h | ⟨raw, hraw, hne⟩
  · exact absurd h hnew
  · have hfix := clean_transcript_fix_of_ne (x := raw) (by rw [← hraw]; exact hne)
    rw [← hraw] at hfix
    exact ⟨hne, hfix.2.1, hfix.2.2, hfix.1⟩

theorem c9_committed_entry_normal_witness :
    (mkEntry vA ⟨goodRaw, idLang, true⟩).transcript_text ≠ [] ∧
    ¬ countTokens (mkEntry vA ⟨goodRaw, idLang, true⟩).transcript_text < 10 ∧
    hasIndicator (mkEntry vA ⟨goodRaw, idLang, true⟩).transcript_text = true ∧
    clean_transcript (mkEntry vA ⟨goodRaw, idLang, true⟩).transcript_text =
      (mkEntry vA ⟨goodRaw, idLang, true⟩).transcript_text :=
  c9_committed_entry_normal benvCommit stEmpty _ (by decide) (by decide)
